import Mathlib

/-!
Verification development for the heading-outline extraction pipeline
(`src/utils.py`, `src/extract.py`, `src/features.py`, `src/classify.py`,
`src/assemble.py`, `src/runner.py`).

The Python sources are shallowly embedded: every pure helper becomes a
computable Lean function over `List Char` / `String`, with page geometry and
font sizes as exact rationals.  The handful of regular expressions used by the
source (`NUM_HDR_RE`, `SECTION_NUM_RE`, the date / dot-leader / bullet
patterns, …) involve only disjoint character classes, so their greedy
backtracking-free semantics is implemented directly as recursive scanners.
Unicode NFKC normalisation, `str.lower`, `str.isupper` … are modelled on the
ASCII fragment, where NFKC is the identity and the case functions shift by 32.
-/

namespace Outline

attribute [local semireducible] Rat.mul Rat.add Rat.sub Rat.inv

/-- ASCII whitespace, the characters matched by Python `\s` / `str.strip()`
on ASCII text. -/
def isSpaceChar (c : Char) : Bool :=
  c = ' ' || c = '\t' || c = '\n' || c = '\r' || c = '\x0b' || c = '\x0c'

/-- Python `\w` on ASCII text: letters, digits and the underscore. -/
def isWordChar (c : Char) : Bool :=
  c.isAlphanum || c = '_'

/-- Python `str.lower` on a single ASCII character. -/
def lowerChar (c : Char) : Char :=
  if 'A' ≤ c ∧ c ≤ 'Z' then Char.ofNat (c.toNat + 32) else c

/-- The characters stripped from both ends by `norm`
(`.strip("-–—:;,.")` in `utils.py`). -/
def isTrimPunct (c : Char) : Bool :=
  c = '-' || c = '–' || c = '—' || c = ':' || c = ';' || c = ',' || c = '.'

/-- Helper for `tokens`: accumulates the current (reversed) word. -/
def tokensAux : List Char → List Char → List (List Char)
  | cur, [] => if cur.isEmpty then [] else [cur.reverse]
  | cur, c :: rest =>
    if isSpaceChar c then
      if cur.isEmpty then tokensAux [] rest else cur.reverse :: tokensAux [] rest
    else tokensAux (c :: cur) rest

/-- Python `str.split()` (split on whitespace runs, dropping empty pieces). -/
def tokens (l : List Char) : List (List Char) := tokensAux [] l

/-- Embedding of `WS_RE.sub(" ", text).strip()` from `utils.norm`: collapse every
whitespace run to a single space and strip the ends. -/
def collapseWS (l : List Char) : List Char :=
  List.intercalate [' '] (tokens l)

/-- Embedding of `l.strip(chars)` for a character class `p`: drop matching characters from
both ends. -/
def stripEnds (p : Char → Bool) (l : List Char) : List Char :=
  ((l.dropWhile p).reverse.dropWhile p).reverse

/-- Embedding of `utils.norm`: NFKC-normalise (identity on the ASCII fragment modelled
here), collapse whitespace, strip, lowercase, and strip the trailing/leading
punctuation class `"-–—:;,."`. -/
def norm (s : String) : String :=
  ⟨stripEnds isTrimPunct ((collapseWS s.data).map lowerChar)⟩

/-- Embedding of `utils.build_header_footer_stopset`: texts occurring at least
`int(page_count * 0.4)` times among `lines` (and nonempty).  For every page
count below `2 ^ 50` the float expression `int(page_count * 0.4)` equals
`⌊2 * page_count / 5⌋`, which is how the cutoff is written here. -/
def build_header_footer_stopset (lines : List String) (page_count : Nat) :
    List String :=
  let cutoff := 2 * page_count / 5
  lines.dedup.filter fun t => decide (cutoff ≤ lines.count t) && decide (t ≠ "")

theorem mem_stopset_iff (lines : List String) (page_count : Nat) (t : String) :
    t ∈ build_header_footer_stopset lines page_count ↔
      t ∈ lines ∧ t ≠ "" ∧ 2 * page_count / 5 ≤ lines.count t := by
  simp only [build_header_footer_stopset, List.mem_filter, List.mem_dedup,
    Bool.and_eq_true, decide_eq_true_eq]
  tauto

/-- Greedy consumer for `(\.\d+)+` tails: from the current position, consume
as many groups `'.' ++ digits⁺` as possible, returning the consumed prefix and
the rest.  Fueled recursion; each step consumes at least two characters, so
fuel equal to the list length never runs out. -/
def dotGroupsF : Nat → List Char → List Char × List Char
  | 0, l => ([], l)
  | _ + 1, [] => ([], [])
  | n + 1, c :: rest =>
    if c = '.' then
      let d := rest.takeWhile Char.isDigit
      if d.isEmpty then ([], c :: rest)
      else
        let gr := dotGroupsF n (rest.dropWhile Char.isDigit)
        (c :: (d ++ gr.1), gr.2)
    else ([], c :: rest)

def dotGroups (l : List Char) : List Char × List Char :=
  dotGroupsF l.length l

/-- Embedding of `extract.NUM_HDR_RE.match(s)` followed by `.group(0).strip()` — the
numeric section prefix of a text, as used by `_merge_line_spans.sec_prefix`:
the text must start with `digits⁺ ('.' digits⁺)⁺` followed by a whitespace
character; the returned prefix drops that trailing whitespace.  The regex
`^\d+(\.\d+)+\s` backtracks over disjoint character classes only, so the
greedy scan below is exact. -/
def secPref (s : String) : Option String :=
  let l := s.data
  let d := l.takeWhile Char.isDigit
  if d.isEmpty then none
  else
    let gr := dotGroups (l.dropWhile Char.isDigit)
    if gr.1.isEmpty then none
    else
      match gr.2 with
      | c :: _ => if isSpaceChar c then some ⟨d ++ gr.1⟩ else none
      | [] => none

/-- Embedding of `extract.SECTION_NUM_RE.fullmatch(s)`: the whole string is
`digits⁺ ('.' digits⁺)⁺` with at most one trailing whitespace character. -/
def secNumFull (s : String) : Bool :=
  let l := s.data
  let d := l.takeWhile Char.isDigit
  if d.isEmpty then false
  else
    let gr := dotGroups (l.dropWhile Char.isDigit)
    if gr.1.isEmpty then false
    else
      match gr.2 with
      | [] => true
      | [c] => isSpaceChar c
      | _ => false

/-- Does `\d+(\.\d+)+\s` match starting exactly at this position? -/
def secAnyAt (l : List Char) : Bool :=
  let d := l.takeWhile Char.isDigit
  if d.isEmpty then false
  else
    let gr := dotGroups (l.dropWhile Char.isDigit)
    if gr.1.isEmpty then false
    else
      match gr.2 with
      | c :: _ => isSpaceChar c
      | [] => false

/-- Scanner for `SECTION_ANY_RE.search`: leftmost position (with a `\b`
boundary, i.e. the previous character is not a word character) where
`\d+(\.\d+)+\s` matches; returns the match start index. -/
def searchSecAnyAux (prevWord : Bool) (i : Nat) : List Char → Option Nat
  | [] => none
  | c :: rest =>
    if !prevWord && secAnyAt (c :: rest) then some i
    else searchSecAnyAux (isWordChar c) (i + 1) rest

/-- Embedding of `features.SECTION_ANY_RE.search` / `classify.SECTION_ANY.search`
(pattern `\b\d+(\.\d+)+\s`), returning `m.start()`. -/
def searchSecAny (s : String) : Option Nat :=
  searchSecAnyAux false 0 s.data

/-- Does `utils.DATE_RE` (`\b\d{1,2}\s+[A-Z]{3,}\s+\d{4}\b`) match at this
position?  The leading `\d{1,2}` fails outright when the digit run here is
longer than 2 (shorter alternatives are then followed by a digit where `\s`
is required), so no backtracking arises. -/
def dateMatchAt (l : List Char) : Bool :=
  let ds := l.takeWhile Char.isDigit
  if ds.length = 0 || 2 < ds.length then false
  else
    let r1 := l.dropWhile Char.isDigit
    if (r1.takeWhile isSpaceChar).isEmpty then false
    else
      let r2 := r1.dropWhile isSpaceChar
      let us := r2.takeWhile fun c => decide ('A' ≤ c) && decide (c ≤ 'Z')
      if us.length < 3 then false
      else
        let r3 := r2.dropWhile fun c => decide ('A' ≤ c) && decide (c ≤ 'Z')
        if (r3.takeWhile isSpaceChar).isEmpty then false
        else
          match r3.dropWhile isSpaceChar with
          | a :: b :: c :: d :: rest =>
            a.isDigit && b.isDigit && c.isDigit && d.isDigit &&
              (match rest with
               | [] => true
               | e :: _ => !isWordChar e)
          | _ => false

def searchDateAux (prevWord : Bool) : List Char → Bool
  | [] => false
  | c :: rest =>
    (!prevWord && dateMatchAt (c :: rest)) || searchDateAux (isWordChar c) rest

/-- Embedding of `utils.looks_like_date`. -/
def looks_like_date (s : String) : Bool :=
  searchDateAux false s.data

def hasDotRun4 : List Char → Bool
  | '.' :: '.' :: '.' :: '.' :: _ => true
  | _ :: rest => hasDotRun4 rest
  | [] => false

/-- Embedding of `utils.looks_like_dot_leader` (`\.{4,}` somewhere in the text). -/
def looks_like_dot_leader (s : String) : Bool :=
  hasDotRun4 s.data

/-- Embedding of `features.NUM_ONLY_RE.fullmatch(txt.strip())`
(pattern `^\d+(\.\d+)?$`). -/
def numOnly (s : String) : Bool :=
  let l := stripEnds isSpaceChar s.data
  let d := l.takeWhile Char.isDigit
  if d.isEmpty then false
  else
    match l.dropWhile Char.isDigit with
    | [] => true
    | '.' :: rest => decide (¬rest.isEmpty) && rest.all Char.isDigit
    | _ => false

/-- Embedding of `features.LEAD_NUM_BULLET.match(txt)` (pattern `^\s*\d+\)`). -/
def leadNumBullet (s : String) : Bool :=
  let l := s.data.dropWhile isSpaceChar
  let d := l.takeWhile Char.isDigit
  decide (¬d.isEmpty) && decide ((l.dropWhile Char.isDigit).head? = some ')')

/-- Does `\d+\.` match at this position (for `runner.NUM_FIELD`)? -/
def numFieldAt (l : List Char) : Bool :=
  let d := l.takeWhile Char.isDigit
  decide (¬d.isEmpty) && decide ((l.dropWhile Char.isDigit).head? = some '.')

def searchNumFieldAux (prevWord : Bool) : List Char → Bool
  | [] => false
  | c :: rest =>
    (!prevWord && numFieldAt (c :: rest)) || searchNumFieldAux (isWordChar c) rest

/-- Embedding of `runner.NUM_FIELD.search` (pattern `\b\d+\.`). -/
def hasNumField (s : String) : Bool :=
  searchNumFieldAux false s.data

/-- Naive substring containment, the semantics of Python `pat in text`. -/
def containsSub : List Char → List Char → Bool
  | pat, [] => pat.isEmpty
  | pat, c :: rest => pat.isPrefixOf (c :: rest) || containsSub pat rest

/-- Embedding of `extract.Span`: one text run / reconstructed line.  The Python bbox tuple
`(x0, y0, x1, y1)` is split into four rational fields (origin top-left,
y grows downwards). -/
structure Span where
  text : String
  page : Nat
  x0 : ℚ
  y0 : ℚ
  x1 : ℚ
  y1 : ℚ
  font_size : ℚ
  font_name : String
  is_bold : Bool
  is_italic : Bool
  lang : String
  level : Option String := none
deriving DecidableEq

/-- Embedding of `features._shorten_after_colon`: long descriptive lines keep the part up
to (and including) the first colon. -/
def shorten_after_colon (txt : String) : String :=
  if txt.data.contains ':' ∧ 5 < (tokens txt.data).length then
    ⟨txt.data.takeWhile (· ≠ ':') ++ [':']⟩
  else txt

/-- The body of the `for s in spans` loop of `features.filter_spans`: `none`
when the span is rejected, `some` of the (possibly text-modified) span kept.
When the numbered-section match starts past position 0 the source keeps a
copy of the span holding only the text from the match onward (`tail`). -/
def filter_one (stop : List String) (title_n : String) (page_cnt : Nat)
    (s : Span) : Option Span :=
  if (1 < page_cnt ∧ s.page = 1) ∨ norm s.text = title_n ∨ norm s.text ∈ stop ∨
      looks_like_date s.text ∨ looks_like_dot_leader s.text ∨
      numOnly s.text ∨ leadNumBullet s.text then
    none
  else
    match searchSecAny s.text with
    | some i =>
      if i ≠ 0 then
        some { s with text := shorten_after_colon ⟨(s.text.data.drop i).dropWhile isSpaceChar⟩ }
      else
        some { s with text := shorten_after_colon s.text }
    | none =>
      if (stripEnds isSpaceChar s.text.data).getLast? = some '.' ∧
          8 < (tokens s.text.data).length then
        none
      else if 18 < (tokens s.text.data).length then
        none
      else
        some { s with text := shorten_after_colon s.text }

/-- Embedding of `features.filter_spans`: build the header/footer stop set over the whole
document once, then keep the surviving spans in order. -/
def filter_spans (spans : List Span) (title : String) (page_cnt : Nat) :
    List Span :=
  let stop := build_header_footer_stopset (spans.map fun s => norm s.text) page_cnt
  spans.filterMap (filter_one stop (norm title) page_cnt)

/-- The sort key order of `assemble.build_outline`:
`(page, bbox[1], bbox[0])` ascending, lexicographically. -/
def keyLE (a b : Span) : Prop :=
  a.page < b.page ∨ (a.page = b.page ∧
    (a.y0 < b.y0 ∨ (a.y0 = b.y0 ∧ a.x0 ≤ b.x0)))

instance : DecidableRel keyLE := fun a b => by
  unfold keyLE; infer_instance

instance : IsTotal Span keyLE := by
  constructor
  intro a b
  rcases Nat.lt_trichotomy a.page b.page with h | h | h
  · exact Or.inl (Or.inl h)
  · rcases lt_trichotomy a.y0 b.y0 with h2 | h2 | h2
    · exact Or.inl (Or.inr ⟨h, Or.inl h2⟩)
    · rcases le_total a.x0 b.x0 with h3 | h3
      · exact Or.inl (Or.inr ⟨h, Or.inr ⟨h2, h3⟩⟩)
      · exact Or.inr (Or.inr ⟨h.symm, Or.inr ⟨h2.symm, h3⟩⟩)
    · exact Or.inr (Or.inr ⟨h.symm, Or.inl h2⟩)
  · exact Or.inr (Or.inl h)

instance : IsTrans Span keyLE := by
  constructor
  intro a b c hab hbc
  rcases hab with h1 | ⟨hp1, h1⟩
  · rcases hbc with h2 | ⟨hp2, _⟩
    · exact Or.inl (h1.trans h2)
    · exact Or.inl (hp2 ▸ h1)
  · rcases hbc with h2 | ⟨hp2, h2⟩
    · exact Or.inl (hp1 ▸ h2)
    · refine Or.inr ⟨hp1.trans hp2, ?_⟩
      rcases h1 with hy1 | ⟨hy1, hx1⟩
      · rcases h2 with hy2 | ⟨hy2, _⟩
        · exact Or.inl (hy1.trans hy2)
        · exact Or.inl (hy2 ▸ hy1)
      · rcases h2 with hy2 | ⟨hy2, hx2⟩
        · exact Or.inl (hy1 ▸ hy2)
        · exact Or.inr ⟨hy1.trans hy2, hx1.trans hx2⟩

/-- An output record entry `{level, text, page}`.  In the source
`getattr(h, "level", "H3")` always finds the (possibly `None`) `level`
attribute of the dataclass, so the entry level is the span's optional
level. -/
structure OutlineEntry where
  level : Option String
  text : String
  page : Nat
deriving DecidableEq

/-- The logical page remapping of `assemble.build_outline`. -/
def logicalPage (page_cnt : Nat) (p : Nat) : Nat :=
  if page_cnt = 1 then 0 else max 1 (p - 1)

/-- Embedding of `assemble.build_outline`: sort by `(page, y0, x0)` (Python `list.sort` is
stable, as is insertion sort with this total preorder) and emit the trimmed
entries with remapped pages. -/
def build_outline (headings : List Span) (page_cnt : Nat) : List OutlineEntry :=
  (headings.insertionSort keyLE).map fun h =>
    ⟨h.level, ⟨stripEnds isSpaceChar h.text.data⟩, logicalPage page_cnt h.page⟩

/-- One substitution pass of `runner.CHAR_STUT` (`(\w)\s+\1\w?` → `\1`).
Fueled; every recursive call is on a proper suffix, so fuel equal to the list
length never runs out. -/
def charStutSubF : Nat → List Char → List Char
  | 0, l => l
  | _ + 1, [] => []
  | n + 1, c :: rest =>
    if isWordChar c then
      if (rest.takeWhile isSpaceChar).isEmpty then c :: charStutSubF n rest
      else
        match rest.dropWhile isSpaceChar with
        | d :: rest2 =>
          if d = c then
            match rest2 with
            | e :: rest3 =>
              if isWordChar e then c :: charStutSubF n rest3
              else c :: charStutSubF n rest2
            | [] => [c]
          else c :: charStutSubF n rest
        | [] => c :: charStutSubF n rest
    else c :: charStutSubF n rest

def charStutSub (l : List Char) : List Char :=
  charStutSubF l.length l

def wordRun (l : List Char) : List Char × List Char :=
  (l.takeWhile isWordChar, l.dropWhile isWordChar)

/-- Greedy consumer for the `(\s+\1\b)+` tail of `runner.WORD_DUP` (with
`re.I`, so the back-reference compares case-insensitively): consume as many
repetitions of whitespace followed by the word `w` (ending at a word
boundary) as possible; `none` when not even one repetition matches. -/
def dupTailF : Nat → List Char → List Char → Option (List Char)
  | 0, _, _ => none
  | n + 1, w, l =>
    if (l.takeWhile isSpaceChar).isEmpty then none
    else
      let r := l.dropWhile isSpaceChar
      let pre := r.take w.length
      if decide (pre.length = w.length) &&
          decide (pre.map lowerChar = w.map lowerChar) &&
          (match r.drop w.length with
           | [] => true
           | e :: _ => !isWordChar e) then
        match dupTailF n w (r.drop w.length) with
        | some rest => some rest
        | none => some (r.drop w.length)
      else none

/-- One substitution pass of `runner.WORD_DUP`
(`\b(\w{2,})(\s+\1\b)+` → `\1`, case-insensitive).  `prevW` tracks whether
the previous character was a word character (for the `\b` anchor). -/
def wordDupSubF : Nat → Bool → List Char → List Char
  | 0, _, l => l
  | _ + 1, _, [] => []
  | n + 1, prevW, c :: rest =>
    if !prevW && isWordChar c then
      let w := (c :: rest).takeWhile isWordChar
      let r := (c :: rest).dropWhile isWordChar
      if 2 ≤ w.length then
        match dupTailF n w r with
        | some r2 => w ++ wordDupSubF n true r2
        | none => w ++ wordDupSubF n true r
      else w ++ wordDupSubF n true r
    else c :: wordDupSubF n (isWordChar c) rest

def wordDupSub (l : List Char) : List Char :=
  wordDupSubF l.length false l

/-- One substitution pass of `runner.WS_COLLAPSE` (`\s{2,}` → a single
space); a lone whitespace character is left untouched. -/
def wsCollapseF : Nat → List Char → List Char
  | 0, l => l
  | _ + 1, [] => []
  | n + 1, c :: rest =>
    if isSpaceChar c then
      match rest with
      | d :: _ =>
        if isSpaceChar d then ' ' :: wsCollapseF n (rest.dropWhile isSpaceChar)
        else c :: wsCollapseF n rest
      | [] => [c]
    else c :: wsCollapseF n rest

def wsCollapseSub (l : List Char) : List Char :=
  wsCollapseF l.length l

/-- One iteration of the `runner._scrub_line` loop body: the three
substitutions in source order. -/
def scrubStep (t : String) : String :=
  ⟨wsCollapseSub (wordDupSub (charStutSub t.data))⟩

/-- The `while prev != text` fixpoint loop of `runner._scrub_line`.  Every
changing pass strictly shrinks the text, so `length + 1` iterations reach the
fixpoint the Python loop reaches. -/
def scrubLoopF : Nat → String → String
  | 0, t => t
  | n + 1, t =>
    let t2 := scrubStep t
    if t2 = t then t else scrubLoopF n t2

/-- Embedding of `runner._scrub_line`. -/
def scrub_line (t : String) : String :=
  ⟨stripEnds isSpaceChar (scrubLoopF (t.length + 1) t).data⟩

/-- The token fold of `runner._dedup_tokens`: keep a token when its
lowercase form is unseen and it is longer than one character; only kept
tokens enter `seen`. -/
def dedupTokAux : List String → List (List Char) → List (List Char)
  | _, [] => []
  | seen, t :: rest =>
    let low : String := ⟨t.map lowerChar⟩
    if low ∉ seen ∧ 1 < t.length then t :: dedupTokAux (low :: seen) rest
    else dedupTokAux seen rest

/-- Embedding of `runner._dedup_tokens`. -/
def dedup_tokens (lines : List String) : String :=
  ⟨List.intercalate [' '] (dedupTokAux [] (lines.flatMap fun ln => tokens ln.data))⟩

/-- Embedding of `runner._is_titlecase_like`: ALL-CAPS (≥ 85 % of alphabetic characters
uppercase) or Title-Case (≥ 60 % of tokens start with an uppercase letter);
the float thresholds `0.85` and `0.60` are the exact rationals `17/20` and
`3/5` here (the double nearest to each literal decides identically for every
ratio a short line can produce). -/
def is_titlecase_like (s : String) : Bool :=
  let txt := stripEnds isSpaceChar s.data
  if txt.isEmpty then false
  else if txt.getLast? = some '.' then false
  else
    let words := tokens txt
    if words.isEmpty then false
    else
      let alpha := txt.filter Char.isAlpha
      if decide (¬alpha.isEmpty) &&
          decide (85 * alpha.length ≤ 100 * alpha.countP Char.isUpper) then true
      else
        let su := words.countP fun w => ((w.find? Char.isAlpha).map Char.isUpper).getD false
        decide (3 * words.length ≤ 5 * su)

/-- Embedding of `runner._FORM_TOKENS` (a Python set; only membership is used, so the
iteration order of the literal is irrelevant). -/
def FORM_TOKENS : List String :=
  ["name", "designation", "date", "service", "pay", "si", "npa", "hometown",
   "home", "town", "wife", "husband", "whether", "entitled", "block", "place",
   "amount", "rs", "s.no", "sno", "age", "relationship", "fare", "bus",
   "rail", "ticket", "advance"]

/-- Embedding of `runner._looks_like_form_line`. -/
def looks_like_form_line (s : String) : Bool :=
  let low := s.data.map lowerChar
  decide (low.getLast? = some ':') ||
    FORM_TOKENS.any (fun t => containsSub t.data low) ||
    (List.range' 1 20).any fun i => (toString i ++ ".").data.isPrefixOf low

def yLE (a b : Span) : Prop := a.y0 ≤ b.y0

instance : DecidableRel yLE := fun a b => by unfold yLE; infer_instance

/-- Embedding of `runner._collect_cover_band`: page-1 spans inside the top band sorted by
`y0` (Python `sorted` is stable, as is insertion sort), falling back to the
whole first page. -/
def collect_cover_band (spans : List Span) (y_limit : ℚ) : List Span :=
  let band := spans.filter fun s => decide (s.page = 1) && decide (s.y0 < y_limit)
  if ¬band.isEmpty then band.insertionSort yLE
  else (spans.filter fun s => decide (s.page = 1)).insertionSort yLE

def TOP_Y_LIMIT : ℚ := 520

/-- The subtitle loop (step 2) of `runner.detect_title`, walking the spans
after the max-font title lines.  `added` counts accepted subtitles (the loop
stops at two); the float thresholds `0.5`, `0.45` and the 240 pt gap are
exact rationals. -/
def subtitleLoop (max_sz base_y : ℚ) : Nat → List Span → List String
  | _, [] => []
  | added, s :: rest =>
    if s.y0 - base_y > 240 ∨ added = 2 then []
    else
      let txt : String := ⟨stripEnds isSpaceChar s.text.data⟩
      if s.font_size ≥ 1/2 * max_sz ∧ ¬hasNumField txt ∧ ¬looks_like_date txt ∧
          is_titlecase_like txt ∧ ¬looks_like_form_line txt ∧
          4 ≤ (tokens txt.data).length ∧ (tokens txt.data).length ≤ 30 then
        scrub_line txt :: subtitleLoop max_sz base_y (added + 1) rest
      else
        if s.font_size < 9/20 * max_sz then []
        else subtitleLoop max_sz base_y added rest

/-- Embedding of `runner.detect_title`: max-font line(s) of the cover band, optionally
extended by up to two accepted subtitles, deduplicated (with the ≤ 8
character fallback to the raw concatenation). -/
def detect_title (spans : List Span) : String :=
  let p1 := collect_cover_band spans TOP_Y_LIMIT
  match p1 with
  | [] => ""
  | first :: _ =>
    let max_sz := p1.foldl (fun m s => max m s.font_size) first.font_size
    let prim := (p1.takeWhile fun s => decide (|s.font_size - max_sz| < 1/2)).map
      fun s => scrub_line s.text
    let raw := prim ++ subtitleLoop max_sz first.y0 0 (p1.drop prim.length)
    let clean : String := ⟨stripEnds isSpaceChar (dedup_tokens raw).data⟩
    if clean.length ≤ 8 then
      ⟨stripEnds isSpaceChar (List.intercalate [' '] (raw.map String.data))⟩
    else clean

/-- Embedding of `runner.INVITE_KEYS`. -/
def INVITE_KEYS : List String :=
  ["for:", "date:", "time:", "rsvp:", "address:"]

/-- Embedding of `runner._is_invite_form`: at least two page-1 lines start with an invite
field label (after stripping and lowercasing). -/
def is_invite_form (spans : List Span) : Bool :=
  let p1 := (spans.filter fun s => decide (s.page = 1)).map
    fun s => (stripEnds isSpaceChar s.text.data).map lowerChar
  2 ≤ p1.countP fun t => INVITE_KEYS.any fun k => k.data.isPrefixOf t

/-- The strict key comparison used by `max(cand, key=lambda s: (s.font_size,
s.bbox[1]))`: Python `max` keeps the first element among key-ties. -/
def calloutKeyGT (a b : Span) : Prop :=
  b.font_size < a.font_size ∨ (a.font_size = b.font_size ∧ b.y0 < a.y0)

instance : DecidableRel calloutKeyGT := fun a b => by unfold calloutKeyGT; infer_instance

/-- The candidate test of `runner._pick_bottom_callout_heading`. -/
def calloutCand (s : Span) : Bool :=
  let txt : String := ⟨stripEnds isSpaceChar s.text.data⟩
  let alpha := s.text.data.filter Char.isAlpha
  decide (s.page = 1) &&
    decide ((3 : ℚ)/5 ≤ ((s.y0 + s.y1) / 2) / 792) &&
    !(containsSub ("www.").data (txt.data.map lowerChar)) &&
    !(containsSub (".com").data (txt.data.map lowerChar)) &&
    decide ((tokens s.text.data).length ≤ 8) &&
    (decide (txt.data.getLast? = some '!') ||
      (decide (¬alpha.isEmpty) && decide (3 * alpha.length ≤ 5 * alpha.countP Char.isUpper)))

/-- Embedding of `runner._pick_bottom_callout_heading`: the candidate maximal under
`(font_size, y0)`, promoted to H1. -/
def pick_bottom_callout (spans : List Span) : Option Span :=
  match spans.filter calloutCand with
  | [] => none
  | c :: cs =>
    let best := cs.foldl (fun b x => if calloutKeyGT x b then x else b) c
    some { best with level := some ("H1") }

def fsGE (a b : Span) : Prop := b.font_size ≤ a.font_size

instance : DecidableRel fsGE := fun a b => by unfold fsGE; infer_instance

def yxLE (a b : Span) : Prop :=
  a.y0 < b.y0 ∨ (a.y0 = b.y0 ∧ a.x0 ≤ b.x0)

instance : DecidableRel yxLE := fun a b => by unfold yxLE; infer_instance

/-- Embedding of `runner._flyer_headings`: the two largest-font spans (stable descending
sort) labelled H1/H2 and re-sorted into reading order. -/
def flyer_headings (spans : List Span) : List Span :=
  match spans with
  | [] => []
  | _ :: _ =>
    let top2 := (spans.insertionSort fsGE).take 2
    let labelled := (top2.zip [("H1" : String), "H2"]).map
      fun p => { p.1 with level := some p.2 }
    labelled.insertionSort yxLE

/-- Embedding of `classify.SECTION_ANY.search(s)` is truthy (same pattern as
`features.SECTION_ANY_RE`). -/
def sectionAnyHit (s : String) : Bool :=
  (searchSecAny s).isSome

/-- Mean font size of the cluster labelled `i`
(`sizes[labels == i].mean()`); the real pipeline never evaluates this on an
empty cluster (k-means labels cover `range k`), and an empty cluster yields
the junk value `0` here where NumPy would yield NaN. -/
def clusterMean (sizes : List ℚ) (labels : List Nat) (i : Nat) : ℚ :=
  let vals := (sizes.zip labels).filterMap fun p => if p.2 = i then some p.1 else none
  vals.sum / (vals.length : ℚ)

def argLE (v : List ℚ) (i j : Nat) : Prop :=
  v.getD i 0 ≤ v.getD j 0

instance (v : List ℚ) : DecidableRel (argLE v) := fun i j => by
  unfold argLE; infer_instance

/-- Embedding of `np.argsort` over the (negated) cluster means.  For distinct values the
result is the unique ascending index order; tie order is unspecified in
NumPy's default sort and irrelevant below. -/
def argsortAsc (v : List ℚ) : List Nat :=
  (List.range v.length).insertionSort (argLE v)

/-- The `level_map` loop of `classify.predict_headings`: walk the clusters in
ascending `negmeans` (descending mean) order; the first cluster fixes
`h1_mean`; a cluster within `0.2` of it is labelled H1, any other cluster at
position `idx` of the order is labelled `H(idx+1)`. -/
def levelMapAssoc (negmeans : List ℚ) : List (Nat × String) :=
  let order := argsortAsc negmeans
  let h1m := negmeans.getD (order.headD 0) 0
  order.enum.map fun p =>
    (p.2,
      if |negmeans.getD p.2 0 - h1m| < 1/5 then ("H1" : String)
      else "H" ++ toString (p.1 + 1))

/-- Embedding of `s.text.split(" ")[0].count(".") + 1`, the dotted-number depth of the
fallback level. -/
def dotDepth (t : String) : Nat :=
  (t.data.takeWhile (· ≠ ' ')).count '.' + 1

/-- Embedding of `classify.predict_headings`.  The stage-1 logistic keep decision
(`probs >= 0.45` over the z-scored feature matrix) and the k-means labelling
are floating-point library computations; they enter as the oracle parameters
`keep` and `cluster`, and every theorem below either holds for all oracles or
instantiates them with behaviour the library provably has on that input
(e.g. a single cluster labels every point 0).  Everything after the oracles —
the force-include of numbered sections, cluster means, the argsort, the
level map and the dotted-depth fallback — is the source translated
directly. -/
def predict_headings (keep : Span → Bool) (cluster : List ℚ → Nat → List Nat)
    (spans : List Span) : List Span :=
  if spans.isEmpty then []
  else
    let cand := spans.filter keep ++
      spans.filter fun s => !keep s && sectionAnyHit s.text
    if cand.isEmpty then []
    else
      let sizes := cand.map fun s => s.font_size
      let k := min 4 sizes.dedup.length
      let labels := cluster sizes k
      let negmeans := (List.range k).map fun i => -(clusterMean sizes labels i)
      let lmap := levelMapAssoc negmeans
      let withLv := cand.enum.map fun p =>
        match labels.get? p.1 with
        | some lab => { p.2 with level := lmap.lookup lab }
        | none => p.2
      withLv.map fun s =>
        match s.level with
        | some _ => s
        | none => { s with level := some ("H" ++ toString (min (dotDepth s.text) 6)) }

/-- Embedding of `s.text.lstrip()[:8].split(" ")[0]` from `features.build_matrix`. -/
def firstTok8 (t : String) : List Char :=
  ((t.data.dropWhile isSpaceChar).take 8).takeWhile (· ≠ ' ')

/-- Python `rstrip(".")`. -/
def stripRightDots (l : List Char) : List Char :=
  (l.reverse.dropWhile (· = '.')).reverse

/-- The leading-numeric-token flag (feature 6):
`first.rstrip(".").replace(".", "").isdigit()`. -/
def numFlag (t : String) : Bool :=
  let f := (stripRightDots (firstTok8 t)).filter (· ≠ '.')
  decide (¬f.isEmpty) && f.all Char.isDigit

/-- One row of `features.build_matrix` before the z-score normalisation of
column 0 (the normalisation divides by a float standard deviation and touches
only that column; components 2–6 are emitted unchanged).  Component 5 is
`sum(c.isupper() for c in s.text) / len(s.text)` — uppercase characters over
the TOTAL character count. -/
def feature_row (s : Span) : List ℚ :=
  [s.font_size,
   if s.is_bold then 1 else 0,
   if s.is_italic then 1 else 0,
   s.y0 / 792,
   (s.text.data.countP Char.isUpper : ℚ) / (s.text.length : ℚ),
   if numFlag s.text then 1 else 0]

/-- A keep oracle accepting everything (the logistic stage keeps any span
whose sigmoid score clears the threshold; the theorems using this oracle do
not depend on which spans the real model keeps). -/
def keepAllOracle : Span → Bool := fun _ => true

/-- A clustering oracle putting every point in cluster 0 — the behaviour
k-means provably has whenever `k = 1`, the only case in which the closed
statements below consult the oracle. -/
def constCluster : List ℚ → Nat → List Nat :=
  fun sizes _ => List.replicate sizes.length 0

/-- Embedding of `runner.process` from the span list onward (extraction, schema
validation and file output are I/O collaborators outside the model).
`max(s.page for s in spans)` raises `ValueError` on an empty span list,
modelled as `none`; otherwise the stages run exactly as in the source:
title detection, the invitation override, noise filtering, classification,
the invite callout and single-page flyer fallbacks, and outline assembly. -/
def process_spans (keep : Span → Bool) (cluster : List ℚ → Nat → List Nat)
    (spans : List Span) : Option (String × List OutlineEntry) :=
  match (spans.map Span.page).max? with
  | none => none
  | some page_cnt =>
    let title0 := detect_title spans
    let invite := decide (page_cnt = 1) && is_invite_form spans
    let title := if invite then "" else title0
    let spans_flt := filter_spans spans title page_cnt
    let h0 := predict_headings keep cluster spans_flt
    let h1 := if invite then
        (match pick_bottom_callout spans with
         | some p => [p]
         | none => h0)
      else h0
    let h2 := if page_cnt = 1 ∧ h1 = [] ∧ title = "" then flyer_headings spans_flt
      else h1
    some (title, build_outline h2 page_cnt)

/-- The per-step merge test of `extract._merge_line_spans` for two spans on
the same page, in source order: the "bare section number + un-numbered
continuation" special case, then the different-prefix veto, then the
geometric rules (shared baseline with a < 40 pt gap, or matching font size
with a positive vertical offset of at most 1.8 × the font size). -/
def mergeDecision (buf nxt : Span) : Bool :=
  if secNumFull ⟨stripEnds isSpaceChar buf.text.data⟩ && (secPref nxt.text).isNone then
    true
  else if (match secPref buf.text, secPref nxt.text with
           | some p, some q => decide (p ≠ q)
           | _, _ => false) then
    false
  else
    (decide (|nxt.y0 - buf.y0| < 2) && decide (nxt.x0 - buf.x1 < 40)) ||
      (decide (|nxt.font_size - buf.font_size| < 6/10) &&
        decide (0 < nxt.y0 - buf.y0) && decide (nxt.y0 - buf.y0 ≤ buf.font_size * (9/5)))

/-- Merging `nxt` into the buffer: texts joined by one space, bbox extended
(`x1` from `nxt`, `y1` the max); the other buffer fields are kept. -/
def mergeSpan (buf nxt : Span) : Span :=
  { buf with
    text := buf.text ++ " " ++ nxt.text,
    x1 := nxt.x1,
    y1 := max buf.y1 nxt.y1 }

/-- The fold of `extract._merge_line_spans` with an open buffer. -/
def mergeLoop : Span → List Span → List Span
  | buf, [] => [buf]
  | buf, nxt :: rest =>
    if nxt.page ≠ buf.page then buf :: mergeLoop nxt rest
    else if mergeDecision buf nxt then mergeLoop (mergeSpan buf nxt) rest
    else buf :: mergeLoop nxt rest

/-- Embedding of `extract._merge_line_spans`. -/
def merge_line_spans : List Span → List Span
  | [] => []
  | b :: rest => mergeLoop b rest

/-! ### Concrete spans used by closed statements -/

def cxTitleA : Span := ⟨"ANNUAL REPORT", 1, 72, 80, 300, 104, 24, "F", false, false, "en", none⟩

def cxTitleF : Span := ⟨"Fiscal Year 2023", 1, 72, 200, 250, 214, 14, "F", false, false, "en", none⟩

def cxBuf : Span := ⟨"2.", 1, 10, 100, 20, 112, 12, "F", false, false, "en", none⟩

def cxNxt : Span := ⟨"3.1 Overview", 1, 24, 100, 90, 112, 12, "F", false, false, "en", none⟩

def wBuf : Span := ⟨"2.1 Background", 1, 10, 100, 80, 112, 12, "F", false, false, "en", none⟩

def wNxt : Span := ⟨"3.1 Overview", 1, 84, 100, 160, 112, 12, "F", false, false, "en", none⟩

def c7a : Span := ⟨"3.1 Overview", 2, 72, 100, 200, 112, 12, "F", false, false, "en", none⟩

def c7b : Span := ⟨"Body text here", 3, 72, 100, 200, 112, 12, "F", false, false, "en", none⟩

def c7c : Span := ⟨"Another body", 4, 72, 100, 200, 112, 12, "F", false, false, "en", none⟩

def c7d : Span := ⟨"Final words", 5, 72, 100, 200, 112, 12, "F", false, false, "en", none⟩

def wSolo : Span := ⟨"xyz", 1, 72, 100, 200, 112, 12, "F", false, false, "en", none⟩

def wDash : Span := ⟨"---", 1, 72, 100, 200, 112, 12, "F", false, false, "en", none⟩

def cxCaps : Span := ⟨"A B", 1, 0, 0, 1, 1, 12, "F", false, false, "en", none⟩

def wCaps : Span := ⟨"Lean", 1, 0, 0, 1, 1, 12, "F", false, false, "en", none⟩

/-! ### C1 — header/footer stop-set threshold -/

/-- C1 (counterexample): in a 3-page document a normalized text occurring a
single time is below 40 % of the page count (1 < 1.2), yet the stop set
contains it, because the source cutoff is `int(page_count * 0.4) = 1` and the
count is over line occurrences.  The claim "a text occurring fewer times than
40 % of the page count is not rejected by this rule" is therefore false. -/
theorem stopset_forty_percent_cx :
    "a" ∈ build_header_footer_stopset ["a"] 3 ∧
      5 * (["a"] : List String).count ("a") < 2 * 3 := by
  decide

/-- C1 (amended): membership in the stop set holds exactly for the nonempty
normalized texts whose occurrence count over the document's line list (not a
count of distinct pages) reaches the floored cutoff `⌊2·page_count/5⌋`
(`int(page_count * 0.4)`); and the Noise Filter rejects any span whose
normalized text is in the stop set. -/
theorem stopset_membership_amended :
    (∀ (lines : List String) (page_count : Nat) (t : String),
        t ∈ build_header_footer_stopset lines page_count ↔
          t ∈ lines ∧ t ≠ "" ∧ 2 * page_count / 5 ≤ lines.count t) ∧
    (∀ (spans : List Span) (title : String) (page_cnt : Nat) (s : Span),
        norm s.text ∈
            build_header_footer_stopset (spans.map fun x => norm x.text) page_cnt →
          filter_one (build_header_footer_stopset (spans.map fun x => norm x.text)
            page_cnt) (norm title) page_cnt s = none) := by
  refine ⟨mem_stopset_iff, ?_⟩
  intro spans title page_cnt s h
  unfold filter_one
  split
  · rfl
  · rename_i hcond
    exact absurd (Or.inr (Or.inr (Or.inl h))) hcond

theorem stopset_membership_amended_witness :
    filter_one (build_header_footer_stopset ([wSolo].map fun x => norm x.text) 1)
      (norm ("Z")) 1 wSolo = none :=
  stopset_membership_amended.2 [wSolo] "Z" 1 wSolo (by decide)

/-! ### C2 — outline assembly order and page remapping -/

/-- C2: `build_outline` emits the headings sorted ascending by
`(physical page, y0, x0)` (a permutation of the input under a total
transitive key order), and each emitted entry's page is `0` when the
document has exactly one physical page and `max 1 (physical page - 1)`
otherwise. -/
theorem build_outline_sorted_pages (headings : List Span) (page_cnt : Nat) :
    (headings.insertionSort keyLE).Sorted keyLE ∧
    (headings.insertionSort keyLE).Perm headings ∧
    build_outline headings page_cnt = (headings.insertionSort keyLE).map
      (fun h => ⟨h.level, ⟨stripEnds isSpaceChar h.text.data⟩,
        if page_cnt = 1 then 0 else max 1 (h.page - 1)⟩) ∧
    (build_outline headings page_cnt).map OutlineEntry.page =
      (headings.insertionSort keyLE).map
        (fun h => if page_cnt = 1 then 0 else max 1 (h.page - 1)) := by
  refine ⟨List.sorted_insertionSort keyLE headings,
    List.perm_insertionSort keyLE headings, rfl, ?_⟩
  simp [build_outline, logicalPage, List.map_map]

/-! ### C3 — level assignment from cluster means -/

theorem getD_map_neg (ms : List ℚ) (i : Nat) (h : i < ms.length) :
    (ms.map Neg.neg).getD i 0 = -(ms.getD i 0) := by
  rw [List.getD_eq_getElem _ _ (by simpa using h), List.getD_eq_getElem _ _ h,
    List.getElem_map]

theorem argsortAsc_of_monotone (v : List ℚ)
    (hv : ∀ i j : Nat, i < j → j < v.length → v.getD i 0 ≤ v.getD j 0) :
    argsortAsc v = List.range v.length := by
  unfold argsortAsc
  apply List.Sorted.insertionSort_eq
  apply List.pairwise_iff_get.mpr
  intro i j hij
  rw [List.get_range, List.get_range]
  exact hv i j (by simpa using hij) (by simpa using j.isLt)

theorem zip_self_eq_map {α : Type} (l : List α) :
    l.zip l = l.map fun a => (a, a) := by
  induction l with
  | nil => rfl
  | cons a t ih => simp [List.zip_cons_cons, ih]

theorem enum_range_eq (n : Nat) :
    (List.range n).enum = (List.range n).map fun i => (i, i) := by
  rw [List.enum_eq_zip_range, List.length_range, zip_self_eq_map]

/-- C3 (counterexample): with cluster means `20` and `19.5` the second
cluster is within 1.2 pt (and within 12 %) of the largest mean, so the claim
labels it H1, but the code labels it H2 (its band is `< 0.2`); and with
cluster means `20`, `19.9`, `10` the third cluster is the first one outside
the band, so the claim labels it H2, but the code labels it H3 (ranks count
every cluster, including the extra H1-band one). -/
theorem level_band_cx :
    (levelMapAssoc (([20, 39/2] : List ℚ).map Neg.neg)).lookup 1 = some ("H2") ∧
    |(39/2 : ℚ) - 20| ≤ 12/10 ∧
    (levelMapAssoc (([20, 199/10, 10] : List ℚ).map Neg.neg)).lookup 1 = some ("H1") ∧
    (levelMapAssoc (([20, 199/10, 10] : List ℚ).map Neg.neg)).lookup 2 = some ("H3") := by
  decide

/-- C3 (amended): after clustering, with the cluster means listed in strictly
descending order, the cluster with the largest mean is H1, every cluster
whose mean is within 0.2 pt (strictly) of the largest mean is also H1, and
every other cluster at position `i` of the descending order is labelled
`H(i+1)` — the rank counts all clusters above it including the extra
H1-band ones, not only the clusters excluded from the band. -/
theorem level_band_amended (ms : List ℚ) (hne : ms ≠ [])
    (hs : ms.Sorted (· > ·)) :
    levelMapAssoc (ms.map Neg.neg) =
      (List.range ms.length).map fun i =>
        (i, if |ms.getD i 0 - ms.getD 0 0| < 1/5 then ("H1" : String)
            else "H" ++ toString (i + 1)) := by
  have hlen : (ms.map Neg.neg).length = ms.length := List.length_map ms Neg.neg
  have hmono : ∀ i j : Nat, i < j → j < (ms.map Neg.neg).length →
      (ms.map Neg.neg).getD i 0 ≤ (ms.map Neg.neg).getD j 0 := by
    intro i j hij hj
    rw [hlen] at hj
    rw [getD_map_neg ms i (hij.trans hj), getD_map_neg ms j hj]
    have hgt := List.Sorted.rel_get_of_lt hs (a := ⟨i, hij.trans hj⟩) (b := ⟨j, hj⟩)
      (by simpa using hij)
    rw [List.getD_eq_getElem _ _ (hij.trans hj), List.getD_eq_getElem _ _ hj]
    have : ms[j] ≤ ms[i] := le_of_lt (by simpa using hgt)
    linarith
  have horder : argsortAsc (ms.map Neg.neg) = List.range (ms.map Neg.neg).length :=
    argsortAsc_of_monotone _ hmono
  have hpos : 0 < ms.length := List.length_pos.mpr hne
  have hhead : (List.range ms.length).headD 0 = 0 := by
    obtain ⟨n, hn⟩ : ∃ n, ms.length = n + 1 := ⟨ms.length - 1, by omega⟩
    rw [hn, List.range_succ_eq_map]
    rfl
  simp only [levelMapAssoc, horder, hlen, hhead, enum_range_eq, List.map_map]
  refine List.map_congr_left ?_
  intro i hi
  have hilt : i < ms.length := List.mem_range.mp hi
  simp only [Function.comp]
  rw [getD_map_neg ms i hilt, getD_map_neg ms 0 hpos, neg_sub_neg, abs_sub_comm]

theorem level_band_amended_witness :
    levelMapAssoc (([20, 10] : List ℚ).map Neg.neg) =
      (List.range ([20, 10] : List ℚ).length).map (fun i =>
        (i, if |(([20, 10] : List ℚ).getD i 0 - ([20, 10] : List ℚ).getD 0 0)| < 1/5
            then ("H1" : String) else "H" ++ toString (i + 1))) :=
  level_band_amended [20, 10] (by decide) (by decide)

/-! ### C4 — different-prefix merge veto in the Line Reconstructor -/

/-- C4 (counterexample): a run whose whole text is the bare prefix `"2."`
carries *no* numeric section prefix under `NUM_HDR_RE` (the regex requires a
second dotted number group and trailing whitespace), so paired with the run
`"3.1 Overview"` (prefix `"3.1"`) on the same page with a shared baseline and
a small gap, the two runs ARE merged into one line — the claim that such a
pair never merges regardless of geometry is false. -/
theorem merge_bare_pref_cx :
    (merge_line_spans [cxBuf, cxNxt]).map Span.text = ["2. 3.1 Overview"] ∧
    secPref cxBuf.text = none ∧ secPref cxNxt.text = some ("3.1") ∧
    cxBuf.text = "2." := by
  decide

/-- C4 (amended): the never-merge veto applies exactly to consecutive
same-page runs that BOTH match `NUM_HDR_RE` (a multi-level dotted number
followed by whitespace, e.g. `"2.1 Background"` vs `"3.1 Overview"`) with
different prefixes; such a pair is never merged, regardless of geometry.  A
bare single-level prefix such as `"2."` does not match `NUM_HDR_RE` and can
still merge on geometric grounds. -/
theorem merge_diff_pref_amended (buf nxt : Span) (rest : List Span)
    (hpage : nxt.page = buf.page) (p q : String)
    (hp : secPref buf.text = some p) (hq : secPref nxt.text = some q)
    (hne : p ≠ q) :
    mergeDecision buf nxt = false ∧
    mergeLoop buf (nxt :: rest) = buf :: mergeLoop nxt rest := by
  have hdec : mergeDecision buf nxt = false := by
    unfold mergeDecision
    rw [hp, hq]
    simp [hne]
  exact ⟨hdec, by simp [mergeLoop, hpage, hdec]⟩

theorem merge_diff_pref_amended_witness :
    mergeDecision wBuf wNxt = false ∧
    mergeLoop wBuf [wNxt] = wBuf :: mergeLoop wNxt [] :=
  merge_diff_pref_amended wBuf wNxt [] (by decide) ("2.1") ("3.1")
    (by decide) (by decide) (by decide)

/-! ### C5 — the "ANNUAL REPORT / Fiscal Year 2023" title example -/

/-- C5 (counterexample): with page-1 lines "ANNUAL REPORT" at 24 pt and
"Fiscal Year 2023" at 14 pt inside the subtitle gap window, the detector does
NOT return "ANNUAL REPORT Fiscal Year 2023": the subtitle has 3 words and the
acceptance test requires between 4 and 30, so it is rejected. -/
theorem title_subtitle_cx :
    detect_title [cxTitleA, cxTitleF] ≠ ("ANNUAL REPORT Fiscal Year 2023") ∧
    cxTitleF.y0 - cxTitleA.y0 ≤ 240 ∧
    (tokens cxTitleF.text.data).length = 3 := by
  decide

/-- C5 (amended): on that input the title is "ANNUAL REPORT" alone.  The
subtitle passes every other acceptance test of the detector (font ≥ half the
max, no numbered field, no date, heading-shaped, not a form row) and is
rejected exactly by the 4–30 word requirement. -/
theorem title_annual_report_amended :
    detect_title [cxTitleA, cxTitleF] = ("ANNUAL REPORT") ∧
    cxTitleF.font_size ≥ 1/2 * cxTitleA.font_size ∧
    ¬hasNumField cxTitleF.text ∧ ¬looks_like_date cxTitleF.text ∧
    is_titlecase_like cxTitleF.text ∧ ¬looks_like_form_line cxTitleF.text ∧
    ¬4 ≤ (tokens cxTitleF.text.data).length := by
  decide

/-! ### C6 — behaviour on empty inputs -/

/-- C6 (counterexample): a document yielding no text runs does not produce an
empty record — `max(s.page for s in spans)` raises `ValueError` on the empty
sequence (modelled by `none`) before any recovery can happen. -/
theorem process_empty_cx :
    process_spans keepAllOracle constCluster [] = none := by
  rfl

/-- C6 (amended): when the span list is nonempty but no candidate survives
the Noise Filter (and the invitation override is not active), the pipeline
recovers locally: it emits a record whose outline is empty, with the title
produced by the Title Detector (which need not be empty). -/
theorem process_no_candidates_amended (keep : Span → Bool)
    (cluster : List ℚ → Nat → List Nat) (spans : List Span) (page_cnt : Nat)
    (hmax : (spans.map Span.page).max? = some page_cnt)
    (hinv : ¬(page_cnt = 1 ∧ is_invite_form spans = true))
    (hflt : filter_spans spans (detect_title spans) page_cnt = []) :
    process_spans keep cluster spans = some (detect_title spans, []) := by
  have hinvb : (decide (page_cnt = 1) && is_invite_form spans) = false := by
    by_cases h1 : page_cnt = 1
    · have : is_invite_form spans = false := by
        cases hif : is_invite_form spans
        · rfl
        · exact absurd ⟨h1, hif⟩ hinv
      simp [this]
    · simp [h1]
  unfold process_spans
  rw [hmax]
  simp only [hinvb, Bool.false_eq_true, if_false, hflt]
  have hpred : predict_headings keep cluster [] = [] := rfl
  rw [hpred]
  have hfly : flyer_headings ([] : List Span) = [] := rfl
  simp only [hfly]
  split <;> rfl

theorem process_no_candidates_amended_witness :
    process_spans keepAllOracle constCluster [wSolo] =
      some (detect_title [wSolo], []) :=
  process_no_candidates_amended keepAllOracle constCluster [wSolo] 1
    (by decide) (by decide) (by decide)

/-! ### C7 — no H1 fallback for an empty title -/

/-- C7 (counterexample): a document with no page-1 spans (pages 2–5), whose
classifier output contains H1 lines, still emits an empty title: `process`
never consults the classified headings when the Title Detector's primary path
yields the empty string, so the "fall back to the first H1 line" behaviour
does not exist. -/
theorem title_no_h1_fallback_cx :
    process_spans keepAllOracle constCluster [c7a, c7b, c7c, c7d] =
      some ("",
        [⟨some ("H1"), "3.1 Overview", 1⟩, ⟨some ("H1"), "Body text here", 2⟩,
         ⟨some ("H1"), "Another body", 3⟩, ⟨some ("H1"), "Final words", 4⟩]) ∧
    detect_title [c7a, c7b, c7c, c7d] = "" := by
  decide

/-- C7 (amended): the emitted title is exactly the Title Detector's result
(forced to the empty string by the single-page invitation override), whatever
the keep and clustering behaviour of the classifier — in particular an empty
primary title is kept even when classified H1 lines exist. -/
theorem title_ignores_headings_amended (keep : Span → Bool)
    (cluster : List ℚ → Nat → List Nat) (spans : List Span) (page_cnt : Nat)
    (hmax : (spans.map Span.page).max? = some page_cnt) :
    (process_spans keep cluster spans).map Prod.fst =
      some (if page_cnt = 1 ∧ is_invite_form spans = true then ""
            else detect_title spans) := by
  unfold process_spans
  rw [hmax]
  simp only [Option.map_some']
  by_cases h1 : page_cnt = 1 <;> by_cases h2 : is_invite_form spans <;>
    simp [h1, h2]

theorem title_ignores_headings_amended_witness :
    (process_spans keepAllOracle constCluster [wSolo]).map Prod.fst =
      some (if 1 = 1 ∧ is_invite_form [wSolo] = true then ""
            else detect_title [wSolo]) :=
  title_ignores_headings_amended keepAllOracle constCluster [wSolo] 1 (by decide)

/-! ### C9 — the uppercase-fraction feature -/

/-- C9 (counterexample): for the text "A B" the fifth feature component is
`2/3` (two uppercase characters over three characters including the space),
not the fraction of alphabetic characters that are uppercase, which is 1. -/
theorem caps_feature_cx :
    (feature_row cxCaps).getD 4 0 = 2/3 ∧
    ((cxCaps.text.data.filter Char.isAlpha).countP Char.isUpper : ℚ) /
        ((cxCaps.text.data.filter Char.isAlpha).length : ℚ) = 1 ∧
    (2/3 : ℚ) ≠ 1 := by
  refine ⟨by decide, by decide, by decide⟩

/-- C9 (amended): the fifth feature component is the number of uppercase
characters divided by the TOTAL character count of the line (non-letters
count in the denominator; the numerator may equivalently be counted over the
alphabetic characters only, since only letters are uppercase). -/
theorem caps_feature_amended (s : Span) (h : s.text ≠ "") :
    (feature_row s).getD 4 0 =
      ((s.text.data.filter Char.isAlpha).countP Char.isUpper : ℚ) /
        (s.text.length : ℚ) := by
  have hc : s.text.data.countP Char.isUpper =
      (s.text.data.filter Char.isAlpha).countP Char.isUpper := by
    rw [List.countP_filter]
    refine (List.countP_congr ?_).symm
    intro c _
    constructor
    · intro hca
      have : c.isUpper = true := (Bool.and_eq_true _ _).mp hca |>.1
      simp [this, Char.isAlpha, Bool.or_eq_true]
    · intro hcu
      simp [hcu, Char.isAlpha]
  simp [feature_row, hc]

theorem caps_feature_amended_witness :
    (feature_row wCaps).getD 4 0 =
      ((wCaps.text.data.filter Char.isAlpha).countP Char.isUpper : ℚ) /
        (wCaps.text.length : ℚ) :=
  caps_feature_amended wCaps (by decide)

/-! ### C10 — documents with at most four pages keep only punctuation-only
lines -/

theorem stripEnds_nil_all (p : Char → Bool) (l : List Char)
    (h : stripEnds p l = []) : ∀ c ∈ l, p c := by
  unfold stripEnds at h
  rw [List.reverse_eq_nil_iff, List.dropWhile_eq_nil_iff] at h
  intro c hc
  rw [← List.takeWhile_append_dropWhile (p := p) (l := l)] at hc
  rcases List.mem_append.mp hc with h1 | h2
  · exact List.mem_takeWhile_imp h1
  · exact h c (List.mem_reverse.mpr h2)

theorem mem_tokensAux (c : Char) (hc : isSpaceChar c = false) :
    ∀ (l cur : List Char), (c ∈ cur ∨ c ∈ l) →
      ∃ w ∈ tokensAux cur l, c ∈ w := by
  intro l
  induction l with
  | nil =>
    intro cur h
    rcases h with h | h
    · cases cur with
      | nil => cases h
      | cons a t =>
        refine ⟨(a :: t).reverse, ?_, List.mem_reverse.mpr h⟩
        simp [tokensAux]
    · cases h
  | cons x rest ih =>
    intro cur h
    by_cases hx : isSpaceChar x = true
    · have hcx : c ≠ x := fun he => by rw [he, hx] at hc; cases hc
      have hcr : c ∈ cur ∨ c ∈ rest := by
        rcases h with h | h
        · exact Or.inl h
        · rcases List.mem_cons.mp h with h | h
          · exact absurd h hcx
          · exact Or.inr h
      cases cur with
      | nil =>
        have hh : c ∈ rest := by
          rcases hcr with h | h
          · cases h
          · exact h
        obtain ⟨w, hw, hcw⟩ := ih [] (Or.inr hh)
        refine ⟨w, ?_, hcw⟩
        simpa [tokensAux, hx] using hw
      | cons a t =>
        rcases hcr with h | h
        · refine ⟨(a :: t).reverse, ?_, List.mem_reverse.mpr h⟩
          simp [tokensAux, hx]
        · obtain ⟨w, hw, hcw⟩ := ih [] (Or.inr h)
          refine ⟨w, ?_, hcw⟩
          simp only [tokensAux, hx, if_true, List.isEmpty_cons, Bool.false_eq_true,
            if_false, List.mem_cons]
          exact Or.inr hw
    · have hx2 : isSpaceChar x = false := by
        cases hq : isSpaceChar x
        · rfl
        · exact absurd hq hx
      have hm : c ∈ x :: cur ∨ c ∈ rest := by
        rcases h with h | h
        · exact Or.inl (List.mem_cons_of_mem x h)
        · rcases List.mem_cons.mp h with h | h
          · exact Or.inl (h ▸ List.mem_cons_self x cur)
          · exact Or.inr h
      obtain ⟨w, hw, hcw⟩ := ih (x :: cur) hm
      refine ⟨w, ?_, hcw⟩
      simpa [tokensAux, hx2] using hw

theorem mem_tokens (c : Char) (l : List Char) (hc : isSpaceChar c = false)
    (h : c ∈ l) : ∃ w ∈ tokens l, c ∈ w :=
  mem_tokensAux c hc l [] (Or.inr h)

theorem mem_intersperse_of_mem {α : Type} (sep : α) (x : α) :
    ∀ (l : List α), x ∈ l → x ∈ l.intersperse sep := by
  intro l
  induction l with
  | nil => intro h; cases h
  | cons a t ih =>
    intro h
    cases t with
    | nil => simpa using h
    | cons b t2 =>
      rw [List.intersperse_cons_cons]
      rcases List.mem_cons.mp h with h | h
      · exact h ▸ List.mem_cons_self _ _
      · exact List.mem_cons_of_mem _ (List.mem_cons_of_mem _ (ih h))

theorem mem_intercalate_of_mem (c : Char) (w : List Char)
    (ws : List (List Char)) (hw : w ∈ ws) (hc : c ∈ w) :
    c ∈ List.intercalate [' '] ws := by
  rw [List.intercalate]
  exact List.mem_join.mpr ⟨w, mem_intersperse_of_mem _ _ _ hw, hc⟩

theorem norm_data_eq (t : String) :
    (norm t).data = stripEnds isTrimPunct ((collapseWS t.data).map lowerChar) := rfl

theorem norm_nil_token_char (t : String) (hn : norm t = "") :
    ∀ c ∈ t.data, isSpaceChar c = false → isTrimPunct (lowerChar c) = true := by
  intro c hc hsp
  have h0 : stripEnds isTrimPunct ((collapseWS t.data).map lowerChar) = [] := by
    rw [← norm_data_eq, hn]
  obtain ⟨w, hw, hcw⟩ := mem_tokens c t.data hsp hc
  have hcol : c ∈ collapseWS t.data := mem_intercalate_of_mem c w _ hw hcw
  exact stripEnds_nil_all _ _ h0 (lowerChar c) (List.mem_map_of_mem lowerChar hcol)

theorem norm_nil_tokens_le_one (t : String) (hn : norm t = "") :
    (tokens t.data).length ≤ 1 := by
  by_contra hlen
  push_neg at hlen
  obtain ⟨w1, w2, ws, htok⟩ : ∃ w1 w2 ws, tokens t.data = w1 :: w2 :: ws := by
    cases hq : tokens t.data with
    | nil => rw [hq] at hlen; simp at hlen
    | cons a tl =>
      cases tl with
      | nil => rw [hq] at hlen; simp at hlen
      | cons b tl2 => exact ⟨a, b, tl2, rfl⟩
  have hsp : ' ' ∈ collapseWS t.data := by
    unfold collapseWS
    rw [htok, List.intercalate]
    refine List.mem_join.mpr ⟨[' '], ?_, List.mem_singleton.mpr rfl⟩
    rw [List.intersperse_cons_cons]
    exact List.mem_cons_of_mem _ (List.mem_cons_self _ _)
  have h0 : stripEnds isTrimPunct ((collapseWS t.data).map lowerChar) = [] := by
    rw [← norm_data_eq, hn]
  have := stripEnds_nil_all _ _ h0 (lowerChar ' ')
    (List.mem_map_of_mem lowerChar hsp)
  exact absurd this (by decide)

theorem isDigit_not_space (c : Char) (hd : c.isDigit = true) :
    isSpaceChar c = false := by
  cases hq : isSpaceChar c
  · rfl
  · exfalso
    simp only [isSpaceChar, Bool.or_eq_true, decide_eq_true_eq] at hq
    rcases hq with ((((h | h) | h) | h) | h) | h <;>
      (subst h; exact absurd hd (by decide))

theorem isDigit_not_trimPunct (c : Char) (hd : c.isDigit = true) :
    ¬ isTrimPunct (lowerChar c) = true := by
  intro hp
  have hcase : lowerChar c = c ∨ ('A' ≤ c ∧ c ≤ 'Z') := by
    unfold lowerChar
    split
    · next h => exact Or.inr h
    · exact Or.inl rfl
  rcases hcase with he | ⟨hA, _⟩
  · rw [he] at hp
    simp only [isTrimPunct, Bool.or_eq_true, decide_eq_true_eq] at hp
    rcases hp with (((((h | h) | h) | h) | h) | h) | h <;>
      (subst h; exact absurd hd (by decide))
  · have hdv : c.val ≥ 48 ∧ c.val ≤ 57 := by
      simp only [Char.isDigit, Bool.and_eq_true, decide_eq_true_eq] at hd
      exact hd
    have h1 : ('A').val ≤ c.val := hA
    have h2 : ('A').val ≤ (57 : UInt32) := UInt32.le_trans h1 hdv.2
    exact absurd h2 (by decide)

theorem norm_nil_no_digit (t : String) (hn : norm t = "") :
    ∀ c ∈ t.data, c.isDigit = false := by
  intro c hc
  cases hq : c.isDigit
  · rfl
  · exact absurd (norm_nil_token_char t hn c hc (isDigit_not_space c hq))
      (isDigit_not_trimPunct c hq)

theorem secAnyAt_head_digit (x : Char) (rest : List Char)
    (h : secAnyAt (x :: rest) = true) : x.isDigit = true := by
  cases hq : x.isDigit
  · exfalso
    unfold secAnyAt at h
    rw [List.takeWhile_cons, hq] at h
    simp at h
  · rfl

theorem searchSecAnyAux_some_digit :
    ∀ (l : List Char) (prev : Bool) (i j : Nat),
      searchSecAnyAux prev i l = some j → ∃ c ∈ l, c.isDigit = true := by
  intro l
  induction l with
  | nil => intro prev i j h; simp [searchSecAnyAux] at h
  | cons x rest ih =>
    intro prev i j h
    unfold searchSecAnyAux at h
    by_cases hc : (!prev && secAnyAt (x :: rest)) = true
    · exact ⟨x, List.mem_cons_self _ _,
        secAnyAt_head_digit x rest ((Bool.and_eq_true _ _).mp hc).2⟩
    · rw [if_neg (by simpa using hc)] at h
      obtain ⟨c, hcm, hcd⟩ := ih (isWordChar x) (i + 1) j h
      exact ⟨c, List.mem_cons_of_mem _ hcm, hcd⟩

theorem searchSecAny_some_digit (t : String) (i : Nat)
    (h : searchSecAny t = some i) : ∃ c ∈ t.data, c.isDigit = true :=
  searchSecAnyAux_some_digit t.data false 0 i h

/-- C10: on a document with at most 4 physical pages the stop-set cutoff
`int(page_count * 0.4)` is at most 1, so every line whose normalized text is
nonempty is in the header/footer stop set and is rejected before any keep
rule (including the numbered-section force-keep) is consulted: every span the
Noise Filter returns has text normalizing to the empty string. -/
theorem filter_small_doc (spans : List Span) (title : String) (page_cnt : Nat)
    (hpc : page_cnt ≤ 4) :
    ∀ s ∈ filter_spans spans title page_cnt, norm s.text = "" := by
  intro s hs
  obtain ⟨t, ht, hone⟩ := List.mem_filterMap.mp hs
  by_cases hn : norm t.text = ""
  · have hsec : searchSecAny t.text = none := by
      cases hq : searchSecAny t.text with
      | none => rfl
      | some i =>
        obtain ⟨c, hc, hcd⟩ := searchSecAny_some_digit _ _ hq
        rw [norm_nil_no_digit _ hn c hc] at hcd
        cases hcd
    have htok : (tokens t.text.data).length ≤ 1 := norm_nil_tokens_le_one _ hn
    have hshort : shorten_after_colon t.text = t.text := by
      unfold shorten_after_colon
      rw [if_neg]
      rintro ⟨-, h5⟩
      omega
    unfold filter_one at hone
    split at hone
    · exact Option.noConfusion hone
    · split at hone
      · rename_i i heq
        rw [hsec] at heq
        exact Option.noConfusion heq
      · split at hone
        · exact Option.noConfusion hone
        · split at hone
          · exact Option.noConfusion hone
          · have hst := Option.some.inj hone
            rw [← hst]
            simpa [hshort] using hn
  · exfalso
    have hmem : norm t.text ∈ build_header_footer_stopset
        (spans.map fun x => norm x.text) page_cnt := by
      rw [mem_stopset_iff]
      refine ⟨List.mem_map_of_mem _ ht, hn, ?_⟩
      have hcount : 0 < (spans.map fun x => norm x.text).count (norm t.text) :=
        List.count_pos_iff_mem.mpr (List.mem_map_of_mem _ ht)
      omega
    unfold filter_one at hone
    rw [if_pos (Or.inr (Or.inr (Or.inl hmem)))] at hone
    exact Option.noConfusion hone

theorem filter_small_doc_witness : norm wDash.text = "" :=
  filter_small_doc [wDash] "Z" 1 (by decide) wDash (by decide)

end Outline
